import Mathlib

/-!
Verification of the multitask-learning composition layer in `src/mtm.py`
(shared-encoder multitask model, task-aware batch collator, task-name
tagging wrapper, and size-proportional multitask batch sampler).

The Python code is shallowly embedded: Python dicts become association
lists over `String` keys (keys of a dict are distinct; theorems that rely
on this carry a `Nodup` hypothesis), Python `None` becomes an explicit
constructor, fallible code returns `Except PyErr`, `torch.tensor` and
`torch.stack` are abstracted as symbolic batch-value constructors that
record the operation and its inputs, and object identity of encoder
modules is modelled by numeric object ids handed out freshly at each
`from_pretrained` call.
-/

/-- Python dict read `d[k]` (and the membership test `k in d`, via
`Option.isSome`): association-list lookup on the first matching key. -/
def assocGet {α : Type} : List (String × α) → String → Option α
  | [], _ => Option.none
  | (k, v) :: rest, key => if k = key then Option.some v else assocGet rest key

/-- Python dict write `d[k] = v`: overwrite the entry if the key is
present, otherwise append a new entry (dicts preserve insertion order). -/
def assocSet {α : Type} : List (String × α) → String → α → List (String × α)
  | [], key, v => [(key, v)]
  | (k, w) :: rest, key, v =>
      if k = key then (key, v) :: rest else (k, w) :: assocSet rest key v

/-- Occurrences of `i` in a list of task indices (used for the sampler's
frequency bookkeeping). -/
def cnt (i : Nat) (l : List Nat) : Nat :=
  l.countP (fun c => decide (c = i))

/-- Python exception values raised by the embedded code. -/
inductive PyErr
  | keyError (msg : String)
  | typeError (msg : String)
  | attributeError (msg : String)
  | indexError (msg : String)
  deriving DecidableEq, Repr

/-- Tensor dtypes that matter to the collator: `torch.int64` (a.k.a.
`torch.long`), plus other integer and floating dtypes an input tensor may
carry.  `torch.float` is `float32`. -/
inductive DType
  | int64
  | int32
  | float32
  | float64
  deriving DecidableEq, Repr

/-- A Python value stored in one example's feature dict: `None`, a string,
or a tensor (dtype plus abstract payload). -/
inductive FValue
  | pyNone
  | str (s : String)
  | tensor (dt : DType) (data : List Int)
  deriving DecidableEq, Repr

/-- `isinstance(v, str)` on a feature value. -/
def fvIsStr : FValue → Bool
  | FValue.str _ => true
  | _ => false

/-- The `.dtype` attribute: present only on tensors. -/
def fvDtype : FValue → Option DType
  | FValue.tensor dt _ => Option.some dt
  | _ => Option.none

/-- One example, as a feature dict (`features` elements in `mtm.py`). -/
abbrev Ex := List (String × FValue)

/-- A value of the collated batch: either `torch.tensor(vals, dtype=dt)`
(used for labels) or `torch.stack(vals)` (used for every other field).
Both torch calls are abstracted as symbolic nodes recording the operation
and its inputs. -/
inductive BVal
  | tens (dt : DType) (vals : List FValue)
  | stk (vals : List FValue)
  deriving DecidableEq, Repr

/-- The list comprehension `[f[k] for f in features]`: raises `KeyError`
when some example lacks the field. -/
def fieldList : List Ex → String → Except PyErr (List FValue)
  | [], _ => Except.ok []
  | f :: rest, k =>
    match assocGet f k with
    | Option.none => Except.error (PyErr.keyError k)
    | Option.some v => Except.map (fun vs => v :: vs) (fieldList rest k)

/-- The guard of the collator's per-field loop:
`k != "labels" and v is not None and not isinstance(v, str)`. -/
def qualField (k : String) (v : FValue) : Bool :=
  decide (k ≠ "labels") && decide (v ≠ FValue.pyNone) && !(fvIsStr v)

/-- The collator's `for k, v in first.items()` loop: for each qualifying
field, compute `torch.stack([f[k] for f in features])` and assign it into
`batch[k]`.  When `batch` is still `None` (no labels were collected), the
item assignment raises `TypeError`, exactly as `None[k] = ...` does in
Python. -/
def collateItems (features : List Ex) :
    List (String × FValue) → Option (List (String × BVal)) →
      Except PyErr (Option (List (String × BVal)))
  | [], batch => Except.ok batch
  | (k, v) :: rest, batch =>
    if qualField k v then
      match fieldList features k with
      | Except.error e => Except.error e
      | Except.ok vals =>
        match batch with
        | Option.none =>
            Except.error (PyErr.typeError
              "NoneType object does not support item assignment")
        | Option.some b =>
            collateItems features rest (Option.some (assocSet b k (BVal.stk vals)))
    else collateItems features rest batch

/-- `NLPDataCollator.collate_batch` on dict-structured examples
(`mtm.py`, lines 75-95).  `features[0]` on an empty list raises
`IndexError`.  When the first example has a non-null `"labels"` value,
its `.dtype` is compared against `torch.int64` to pick the target dtype
(`torch.long` when equal, `torch.float` otherwise) and the labels of all
examples are collected into one tensor; then every other field of the
first example that is non-null and not a string is stacked across the
examples.  The non-dict fallback branch of the source delegates to the
external `DataCollatorWithPadding` and is outside this embedding, whose
examples are always dicts. -/
def NLPDataCollator.collate_batch (features : List Ex) :
    Except PyErr (Option (List (String × BVal))) :=
  match features with
  | [] => Except.error (PyErr.indexError "list index out of range")
  | first :: _ =>
    match assocGet first "labels" with
    | Option.some v =>
      if v ≠ FValue.pyNone then
        match fvDtype v with
        | Option.none =>
            Except.error (PyErr.attributeError "object has no attribute dtype")
        | Option.some dt =>
          match fieldList features "labels" with
          | Except.error e => Except.error e
          | Except.ok vals =>
            collateItems features first
              (Option.some [("labels",
                BVal.tens (if dt = DType.int64 then DType.int64 else DType.float32)
                  vals)])
      else collateItems features first Option.none
    | Option.none => collateItems features first Option.none

/-- The value of field `k` across all examples (the pure result of the
comprehension `[f[k] for f in features]` when every lookup succeeds). -/
def column (features : List Ex) (k : String) : List FValue :=
  features.filterMap (fun f => assocGet f k)

/-- `s.startswith(p)` on exploded strings. -/
def startsWithL : List Char → List Char → Bool
  | _, [] => true
  | [], _ :: _ => false
  | c :: cs, p :: ps => decide (c = p) && startsWithL cs ps

/-- Python `str.startswith`. -/
def pyStartsWith (s p : String) : Bool :=
  startsWithL s.toList p.toList

/-- A single-task pretrained model as `MultitaskModel.create` sees it:
its class name (`model.__class__.__name__`), the object id of the encoder
module currently bound to its architecture-specific encoder attribute
(`.bert` / `.roberta` / `.albert`), and its forward behaviour, which
reads from whatever encoder object the model currently references. -/
structure PModel (K Out : Type) where
  className : String
  encoder : Nat
  run : Nat → K → Out

/-- `MultitaskModel.get_encoder_attr_name` (`mtm.py`, lines 50-64):
class-name-prefix dispatch to the encoder attribute name; any other class
name raises `KeyError("Add support for new model ...")`. -/
def MultitaskModel.get_encoder_attr_name {K Out : Type} (model : PModel K Out) :
    Except PyErr String :=
  if pyStartsWith model.className "Bert" then Except.ok "bert"
  else if pyStartsWith model.className "Roberta" then Except.ok "roberta"
  else if pyStartsWith model.className "Albert" then Except.ok "albert"
  else Except.error (PyErr.keyError ("Add support for new model " ++ model.className))

/-- The `MultitaskModel` object: the `encoder` attribute set by
`__init__` (`None` when `create` saw no tasks) and the
`taskmodels_dict` mapping task names to task models. -/
structure MultitaskModel (K Out : Type) where
  encoder : Option Nat
  taskmodels_dict : List (String × PModel K Out)

/-- The loop body of `MultitaskModel.create` (`mtm.py`, lines 33-47).
`fp` abstracts the external `model_type.from_pretrained(model_name,
config=...)` call: it supplies the forward behaviour of the freshly
constructed model, while the embedding itself hands the new model a fresh
encoder object id (`fresh`) — each `from_pretrained` call builds a new
encoder object.  Looking up a task's missing config raises `KeyError`;
`get_encoder_attr_name` may raise for unsupported architectures; for the
first model the shared encoder becomes `getattr(model, attr)`, and every
later model has `setattr(model, attr, shared_encoder)` applied. -/
def MultitaskModel.createLoop {K Out Cfg : Type} (model_name : String)
    (model_config_dict : List (String × Cfg))
    (fp : String → String → Cfg → Nat → K → Out) :
    List (String × String) → Nat → Option Nat → List (String × PModel K Out) →
      Except PyErr (Option Nat × List (String × PModel K Out))
  | [], _, shared_encoder, taskmodels => Except.ok (shared_encoder, taskmodels)
  | (task_name, model_type) :: rest, fresh, shared_encoder, taskmodels =>
    match assocGet model_config_dict task_name with
    | Option.none => Except.error (PyErr.keyError task_name)
    | Option.some cfg =>
      match shared_encoder with
      | Option.none =>
        match MultitaskModel.get_encoder_attr_name
            (⟨model_type, fresh, fp model_name model_type cfg⟩ : PModel K Out) with
        | Except.error e => Except.error e
        | Except.ok _ =>
            MultitaskModel.createLoop model_name model_config_dict fp rest
              (fresh + 1) (Option.some fresh)
              (taskmodels ++ [(task_name, ⟨model_type, fresh, fp model_name model_type cfg⟩)])
      | Option.some enc =>
        match MultitaskModel.get_encoder_attr_name
            (⟨model_type, fresh, fp model_name model_type cfg⟩ : PModel K Out) with
        | Except.error e => Except.error e
        | Except.ok _ =>
            MultitaskModel.createLoop model_name model_config_dict fp rest
              (fresh + 1) (Option.some enc)
              (taskmodels ++ [(task_name, ⟨model_type, enc, fp model_name model_type cfg⟩)])

/-- `MultitaskModel.create` (`mtm.py`, lines 24-48): run the loop from an
empty shared encoder and dict, then package the result (the unused
`nn.Dropout` local of the source has no observable effect and is
omitted). -/
def MultitaskModel.create {K Out Cfg : Type} (model_name : String)
    (model_type_dict : List (String × String))
    (model_config_dict : List (String × Cfg))
    (fp : String → String → Cfg → Nat → K → Out) :
    Except PyErr (MultitaskModel K Out) :=
  Except.map (fun p => ⟨p.1, p.2⟩)
    (MultitaskModel.createLoop model_name model_config_dict fp
      model_type_dict 0 Option.none [])

/-- `MultitaskModel.forward` (`mtm.py`, lines 66-67): look the task up in
`taskmodels_dict` (a missing key raises `KeyError`) and call that task
model on the keyword inputs; the task model reads from the encoder object
it currently references. -/
def MultitaskModel.forward {K Out : Type} (m : MultitaskModel K Out)
    (task_name : String) (kwargs : K) : Except PyErr Out :=
  match assocGet m.taskmodels_dict task_name with
  | Option.none => Except.error (PyErr.keyError task_name)
  | Option.some model => Except.ok (model.run model.encoder kwargs)

/-- A compute device, the argument of `.to(device)`. -/
inductive Device
  | cpu
  | cuda (index : Nat)
  deriving DecidableEq, Repr

/-- `StrIgnoreDevice` (`mtm.py`, lines 98-106): a `str` subclass. -/
structure StrIgnoreDevice where
  s : String
  deriving DecidableEq, Repr

/-- `StrIgnoreDevice.to(device)` returns `self` unchanged. -/
def StrIgnoreDevice.to (x : StrIgnoreDevice) (_device : Device) : StrIgnoreDevice :=
  x

/-- A value inside a yielded training batch: a tensor-like value or the
injected `StrIgnoreDevice` task name. -/
inductive BatchItem
  | tens (dt : DType) (data : List Int)
  | sid (x : StrIgnoreDevice)
  deriving DecidableEq, Repr

/-- A yielded batch: a dict from field name to batch value. -/
abbrev TBatch := List (String × BatchItem)

/-- The underlying torch `DataLoader` as `DataLoaderWithTaskname` uses
it: its configured batch size, its dataset, and the batch stream its
iterator yields. -/
structure PyDataLoader (E : Type) where
  batch_size : Nat
  dataset : List E
  batches : List TBatch

/-- `DataLoaderWithTaskname` (`mtm.py`, lines 109-127): wraps a data
loader together with a task name (the `batch_size` and `dataset`
attributes copied by `__init__` are recovered from `data_loader`). -/
structure DataLoaderWithTaskname (E : Type) where
  task_name : String
  data_loader : PyDataLoader E

/-- `DataLoaderWithTaskname.__iter__`: yield each underlying batch after
executing `batch["task_name"] = StrIgnoreDevice(self.task_name)`. -/
def DataLoaderWithTaskname.iter {E : Type} (d : DataLoaderWithTaskname E) :
    List TBatch :=
  d.data_loader.batches.map
    (fun batch => assocSet batch "task_name" (BatchItem.sid ⟨d.task_name⟩))

/-- What `MultitaskDataloader` needs of each per-task dataloader: its
reported `len()` (the declared batch count), its `.dataset`, and the
batch stream a fresh `iter()` on it actually supplies. -/
structure TaskLoader (B E : Type) where
  declaredLen : Nat
  dataset : List E
  batches : List B

/-- `MultitaskDataloader` (`mtm.py`, lines 130-170), keyed by its
constructor argument; the attributes computed by `__init__` are the
definitions below. -/
structure MultitaskDataloader (B E : Type) where
  dataloader_dict : List (String × TaskLoader B E)

/-- `self.num_batches_dict = {task_name: len(dataloader) for ...}`. -/
def MultitaskDataloader.num_batches_dict {B E : Type}
    (m : MultitaskDataloader B E) : List (String × Nat) :=
  m.dataloader_dict.map (fun p => (p.1, p.2.declaredLen))

/-- `self.task_name_list = list(self.dataloader_dict)`. -/
def MultitaskDataloader.task_name_list {B E : Type}
    (m : MultitaskDataloader B E) : List String :=
  m.dataloader_dict.map Prod.fst

/-- `self.dataset = [None] * sum(len(dataloader.dataset) for ...)`. -/
def MultitaskDataloader.dataset {B E : Type} (m : MultitaskDataloader B E) :
    List (Option E) :=
  List.replicate ((m.dataloader_dict.map (fun p => p.2.dataset.length)).sum)
    Option.none

/-- `MultitaskDataloader.__len__`: `sum(self.num_batches_dict.values())`. -/
def MultitaskDataloader.len {B E : Type} (m : MultitaskDataloader B E) : Nat :=
  ((MultitaskDataloader.num_batches_dict m).map Prod.snd).sum

/-- The loop building `task_choice_list`: for the task at enumeration
index `i`, append `[i] * self.num_batches_dict[task_name]` (the key comes
from the same dict, so the lookup always succeeds; `getD 0` supplies the
unreachable-default). -/
def taskChoiceGo (nbd : List (String × Nat)) : Nat → List String → List Nat
  | _, [] => []
  | i, task_name :: rest =>
      List.replicate ((assocGet nbd task_name).getD 0) i ++
        taskChoiceGo nbd (i + 1) rest

/-- The flat `task_choice_list` built at the top of
`MultitaskDataloader.__iter__` before shuffling. -/
def MultitaskDataloader.task_choice_list {B E : Type}
    (m : MultitaskDataloader B E) : List Nat :=
  taskChoiceGo (MultitaskDataloader.num_batches_dict m) 0
    (MultitaskDataloader.task_name_list m)

/-- How a pass of `MultitaskDataloader.__iter__` can terminate abnormally
at a given step: `task_name_list[task_choice]` out of range
(`IndexError`), `dataloader_iter_dict[task_name]` missing (`KeyError`),
or `next()` on an exhausted task iterator (`StopIteration`, surfaced as
`RuntimeError` from inside a generator per PEP 479). -/
inductive IterErr
  | indexError (step : Nat)
  | keyError (step : Nat)
  | stopIteration (step : Nat)
  deriving DecidableEq, Repr

/-- The yield loop of `MultitaskDataloader.__iter__`: walk the (already
shuffled) `task_choice_list`, and for each entry resolve
`task_name = self.task_name_list[task_choice]` and yield
`next(dataloader_iter_dict[task_name])`.  `iters` holds each task
iterator's remaining stream; advancing an iterator pops its head. -/
def runChoices {B : Type} (names : List String) :
    List (String × List B) → Nat → List Nat → Except IterErr (List B)
  | _, _, [] => Except.ok []
  | iters, step, task_choice :: rest =>
    match names.get? task_choice with
    | Option.none => Except.error (IterErr.indexError step)
    | Option.some task_name =>
      match assocGet iters task_name with
      | Option.none => Except.error (IterErr.keyError step)
      | Option.some [] => Except.error (IterErr.stopIteration step)
      | Option.some (b :: more) =>
          Except.map (fun bs => b :: bs)
            (runChoices names (assocSet iters task_name more) (step + 1) rest)

/-- A full pass of `MultitaskDataloader.__iter__`, parameterised by the
shuffled order `choices` (`np.random.shuffle` produces some permutation
of `task_choice_list`; theorems quantify over all of them):
`dataloader_iter_dict` holds one fresh iterator per task, and the walk
yields one batch per entry of `choices`. -/
def MultitaskDataloader.iterRun {B E : Type} (m : MultitaskDataloader B E)
    (choices : List Nat) : Except IterErr (List B) :=
  runChoices (MultitaskDataloader.task_name_list m)
    (m.dataloader_dict.map (fun p => (p.1, p.2.batches))) 0 choices

/-- The subsequence of yielded batches drawn while the choice list points
at task index `i` (pairs each choice with its yield). -/
def selectTask {B : Type} : List Nat → List B → Nat → List B
  | c :: cs, b :: bs, i =>
      if c = i then b :: selectTask cs bs i else selectTask cs bs i
  | _, _, _ => []

/-! Concrete fixtures used by the witness theorems. -/

/-- A Bert-family task model. -/
def bertModel : PModel Unit Unit := ⟨"BertForSequenceClassification", 0, fun _ _ => ()⟩

/-- A Roberta-family task model. -/
def robertaModel : PModel Unit Unit := ⟨"RobertaForMaskedLM", 0, fun _ _ => ()⟩

/-- An Albert-family task model. -/
def albertModel : PModel Unit Unit := ⟨"AlbertModel", 0, fun _ _ => ()⟩

/-- A task model of an unsupported architecture family. -/
def gpt2Model : PModel Unit Unit := ⟨"GPT2Model", 0, fun _ _ => ()⟩

/-- A `from_pretrained` behaviour whose forward pass reports the id of
the encoder object the model currently references. -/
def sampleFP : String → String → Unit → Nat → Unit → Nat :=
  fun _ _ _ enc _ => enc

/-- A two-task model-type mapping (one Bert head, one Roberta head). -/
def sampleTypes : List (String × String) :=
  [("sst", "BertForSequenceClassification"),
   ("mnli", "RobertaForSequenceClassification")]

/-- Configs for the two tasks of `sampleTypes`. -/
def sampleCfgs : List (String × Unit) := [("sst", ()), ("mnli", ())]

/-- The multitask model `create` builds from `sampleTypes`. -/
def sampleCreatedMM : MultitaskModel Unit Nat :=
  ⟨Option.some 0,
   [("sst", ⟨"BertForSequenceClassification", 0,
       sampleFP "bert-base-cased" "BertForSequenceClassification" ()⟩),
    ("mnli", ⟨"RobertaForSequenceClassification", 0,
       sampleFP "bert-base-cased" "RobertaForSequenceClassification" ()⟩)]⟩

/-- First example of the collator fixture: integer labels, a tensor
field, a string field and a null field. -/
def sampleFirst : Ex :=
  [("labels", FValue.tensor DType.int64 [1]),
   ("x", FValue.tensor DType.int64 [7]),
   ("s", FValue.str "pos"),
   ("n", FValue.pyNone)]

/-- Second example of the collator fixture. -/
def sampleSecond : Ex :=
  [("labels", FValue.tensor DType.int64 [2]),
   ("x", FValue.tensor DType.int64 [8]),
   ("s", FValue.str "neg"),
   ("n", FValue.pyNone)]

/-- Third example of the collator fixture. -/
def sampleThird : Ex :=
  [("labels", FValue.tensor DType.int64 [3]),
   ("x", FValue.tensor DType.int64 [9]),
   ("s", FValue.str "pos"),
   ("n", FValue.pyNone)]

/-- The collator fixture batch: three dict-structured examples. -/
def sampleFeats : List Ex := [sampleFirst, sampleSecond, sampleThird]

/-- A wrapped single-task dataloader yielding one batch. -/
def sampleDLWT : DataLoaderWithTaskname Nat :=
  ⟨"sst", ⟨2, [0, 1, 2, 3], [[("input_ids", BatchItem.tens DType.int64 [1, 2])]]⟩⟩

/-- The batch `sampleDLWT` yields, after task-name injection. -/
def taggedBatch : TBatch :=
  [("input_ids", BatchItem.tens DType.int64 [1, 2]),
   ("task_name", BatchItem.sid ⟨"sst"⟩)]

/-- A two-task multitask dataloader whose iterators supply exactly the
declared batch counts (task `a`: 2 batches, task `b`: 1 batch). -/
def sampleMTD : MultitaskDataloader Nat Nat :=
  ⟨[("a", ⟨2, [0, 1, 2], [10, 11]⟩), ("b", ⟨1, [5, 6], [20]⟩)]⟩

/-- A multitask dataloader whose task declares 2 batches but supplies
only 1. -/
def shortMTD : MultitaskDataloader Nat Nat :=
  ⟨[("a", ⟨2, [0], [10]⟩)]⟩

/-! Helper lemmas about the dict embedding. -/

/-- Reading back the key just written. -/
theorem assocGet_assocSet_self {α : Type} (l : List (String × α)) (k : String)
    (v : α) : assocGet (assocSet l k v) k = Option.some v := by
  induction l with
  | nil => simp [assocSet, assocGet]
  | cons p rest ih =>
    obtain ⟨a, w⟩ := p
    by_cases h : a = k
    · subst h; simp [assocSet, assocGet]
    · simp [assocSet, assocGet, h, ih]

/-- Writing one key leaves every other key unchanged. -/
theorem assocGet_assocSet_ne {α : Type} (l : List (String × α)) {k k' : String}
    (v : α) (h : k' ≠ k) : assocGet (assocSet l k v) k' = assocGet l k' := by
  have h' : ¬k = k' := fun hh => h hh.symm
  induction l with
  | nil => simp [assocSet, assocGet, h']
  | cons p rest ih =>
    obtain ⟨a, w⟩ := p
    by_cases ha : a = k
    · subst ha
      simp [assocSet, assocGet, h']
    · simp [assocSet, assocGet, ha, ih]

/-- Writing an existing key does not change the key set. -/
theorem assocSet_map_fst_of_mem {α : Type} {l : List (String × α)} {k : String}
    (v : α) (h : k ∈ l.map Prod.fst) :
    (assocSet l k v).map Prod.fst = l.map Prod.fst := by
  induction l with
  | nil => simp at h
  | cons p rest ih =>
    obtain ⟨a, w⟩ := p
    by_cases ha : a = k
    · subst ha; simp [assocSet]
    · simp only [List.map_cons, List.mem_cons] at h
      rcases h with h | h
    
      · exact absurd h.symm ha
      · simp [assocSet, ha, ih h]

/-- Writing an absent key appends the new entry. -/
theorem assocSet_eq_append_of_not_mem {α : Type} {l : List (String × α)}
    {k : String} (v : α) (h : k ∉ l.map Prod.fst) :
    assocSet l k v = l ++ [(k, v)] := by
  induction l with
  | nil => simp [assocSet]
  | cons p rest ih =>
    obtain ⟨a, w⟩ := p
    simp only [List.map_cons, List.mem_cons] at h
    push_neg at h
    have ha : ¬a = k := fun hh => h.1 hh.symm
    simp [assocSet, ha, ih h.2]

/-- A lookup succeeds exactly on the keys of the dict. -/
theorem assocGet_isSome_iff_mem {α : Type} {l : List (String × α)} {k : String} :
    (assocGet l k).isSome = true ↔ k ∈ l.map Prod.fst := by
  induction l with
  | nil => simp [assocGet]
  | cons p rest ih =>
    obtain ⟨a, w⟩ := p
    by_cases ha : a = k
    · subst ha; simp [assocGet]
    · have ha' : ¬k = a := fun hh => ha hh.symm
      simp [assocGet, ha, ha', ih]

/-- A lookup on a key outside the dict fails. -/
theorem assocGet_eq_none_of_not_mem {α : Type} {l : List (String × α)}
    {k : String} (h : k ∉ l.map Prod.fst) : assocGet l k = Option.none := by
  cases hk : assocGet l k with
  | none => rfl
  | some v =>
    exact absurd (assocGet_isSome_iff_mem.mp (by simp [hk])) h

/-- A successful lookup comes from an entry of the dict. -/
theorem assocGet_some_mem {α : Type} {l : List (String × α)} {k : String}
    {v : α} (h : assocGet l k = Option.some v) : (k, v) ∈ l := by
  induction l with
  | nil => simp [assocGet] at h
  | cons p rest ih =>
    obtain ⟨a, w⟩ := p
    by_cases ha : a = k
    · subst ha
      simp only [assocGet, if_pos rfl] at h
      cases h
      exact List.mem_cons_self _ _
    · simp only [assocGet, if_neg ha] at h
      exact List.mem_cons_of_mem _ (ih h)

/-- With distinct keys, membership determines the lookup. -/
theorem assocGet_of_mem_nodup {α : Type} {l : List (String × α)}
    (hnd : (l.map Prod.fst).Nodup) {k : String} {v : α} (h : (k, v) ∈ l) :
    assocGet l k = Option.some v := by
  induction l with
  | nil => simp at h
  | cons p rest ih =>
    obtain ⟨a, w⟩ := p
    simp only [List.map_cons, List.nodup_cons] at hnd
    rcases List.mem_cons.mp h with h | h
    · cases h; simp [assocGet]
    · have hak : a ≠ k := by
        intro hak
        subst hak
        exact hnd.1 (List.mem_map.mpr ⟨(a, v), h, rfl⟩)
      simp [assocGet, hak, ih hnd.2 h]

/-- With distinct keys, the entry at position `i` is what its key looks
up to. -/
theorem assocGet_of_get? {α : Type} {l : List (String × α)}
    (hnd : (l.map Prod.fst).Nodup) {i : Nat} {p : String × α}
    (h : l.get? i = Option.some p) : assocGet l p.1 = Option.some p.2 := by
  obtain ⟨k, v⟩ := p
  exact assocGet_of_mem_nodup hnd (List.get?_mem h)

/-- With distinct keys, two entries sharing a key share their value. -/
theorem assoc_value_unique {α : Type} {l : List (String × α)}
    (hnd : (l.map Prod.fst).Nodup) {k : String} {v w : α}
    (hv : (k, v) ∈ l) (hw : (k, w) ∈ l) : v = w := by
  have h1 := assocGet_of_mem_nodup hnd hv
  have h2 := assocGet_of_mem_nodup hnd hw
  rw [h1] at h2
  exact Option.some.inj h2

/-! Helper lemmas about occurrence counts. -/

theorem cnt_nil (i : Nat) : cnt i [] = 0 := rfl

theorem cnt_cons (i c : Nat) (cs : List Nat) :
    cnt i (c :: cs) = cnt i cs + (if c = i then 1 else 0) := by
  simp [cnt, List.countP_cons]

theorem cnt_append (i : Nat) (l₁ l₂ : List Nat) :
    cnt i (l₁ ++ l₂) = cnt i l₁ + cnt i l₂ := by
  simp [cnt, List.countP_append]

theorem cnt_perm {l₁ l₂ : List Nat} (h : l₁.Perm l₂) (i : Nat) :
    cnt i l₁ = cnt i l₂ :=
  List.Perm.countP_eq _ h

theorem cnt_replicate (i j n : Nat) :
    cnt i (List.replicate n j) = if j = i then n else 0 := by
  induction n with
  | zero => simp [cnt]
  | succ n ih =>
    rw [List.replicate_succ, cnt_cons, ih]
    by_cases h : j = i <;> simp [h]

theorem cnt_take_le (i n : Nat) (l : List Nat) :
    cnt i (l.take n) ≤ cnt i l :=
  List.Sublist.countP_le _ (List.take_sublist n l)

theorem cnt_take_succ {l : List Nat} {n c : Nat} (h : l.get? n = Option.some c)
    (i : Nat) :
    cnt i (l.take (n + 1)) = cnt i (l.take n) + (if c = i then 1 else 0) := by
  rw [List.take_succ, cnt_append, ← List.get?_eq_getElem?, h]
  simp [cnt_cons, cnt_nil]

/-! Helper lemmas about string prefixes. -/

/-- A list starting with a non-empty pattern starts with its first
character. -/
theorem startsWithL_cons {l : List Char} {p : Char} {ps : List Char}
    (h : startsWithL l (p :: ps) = true) :
    ∃ cs, l = p :: cs ∧ startsWithL cs ps = true := by
  cases l with
  | nil => simp [startsWithL] at h
  | cons c cs =>
    simp only [startsWithL, Bool.and_eq_true, decide_eq_true_eq] at h
    exact ⟨cs, by rw [h.1], h.2⟩

/-- Two prefixes beginning with different characters cannot both match. -/
theorem pyStartsWith_ne_of_head {s p q : String} {c d : Char}
    {ps qs : List Char} (hp : p.toList = c :: ps) (hq : q.toList = d :: qs)
    (hcd : c ≠ d) (h : pyStartsWith s p = true) : pyStartsWith s q = false := by
  unfold pyStartsWith at h ⊢
  rw [hp] at h
  rw [hq]
  obtain ⟨cs, hl, _⟩ := startsWithL_cons h
  rw [hl]
  simp [startsWithL, hcd]

/-! Helper lemmas about Nodup and positions. -/

/-- In a duplicate-free list, a value determines its position. -/
theorem nodup_get?_inj {α : Type} {l : List α} (hnd : l.Nodup) {i j : Nat}
    {a : α} (hi : l.get? i = Option.some a) (hj : l.get? j = Option.some a) :
    i = j := by
  obtain ⟨hilt, -⟩ := List.get?_eq_some.mp hi
  exact List.get?_inj hilt hnd (hi.trans hj.symm)

/-- In a duplicate-free list, distinct positions hold distinct values. -/
theorem nodup_get?_ne {α : Type} {l : List α} (hnd : l.Nodup) {i j : Nat}
    {a b : α} (hi : l.get? i = Option.some a) (hj : l.get? j = Option.some b)
    (hij : i ≠ j) : a ≠ b := by
  intro hab
  subst hab
  exact hij (nodup_get?_inj hnd hi hj)

/-! Helper lemmas about the flat task-choice list. -/

/-- Entries produced from start index `j` lie in `[j, j + #names)`. -/
theorem taskChoiceGo_bound (nbd : List (String × Nat)) :
    ∀ (names : List String) (j c : Nat), c ∈ taskChoiceGo nbd j names →
      j ≤ c ∧ c < j + names.length := by
  intro names
  induction names with
  | nil =>
    intro j c hc
    simp [taskChoiceGo] at hc
  | cons nm rest ih =>
    intro j c hc
    simp only [taskChoiceGo, List.mem_append] at hc
    rcases hc with hc | hc
    · have := List.eq_of_mem_replicate hc
      subst this
      simp only [List.length_cons]
      omega
    · obtain ⟨h1, h2⟩ := ih (j + 1) c hc
      simp only [List.length_cons]
      omega

/-- Indices below the start index never occur. -/
theorem cnt_taskChoiceGo_of_lt (nbd : List (String × Nat)) :
    ∀ (names : List String) (j i : Nat), i < j →
      cnt i (taskChoiceGo nbd j names) = 0 := by
  intro names
  induction names with
  | nil =>
    intro j i _
    simp [taskChoiceGo, cnt_nil]
  | cons nm rest ih =>
    intro j i hij
    have hji : ¬j = i := by omega
    simp [taskChoiceGo, cnt_append, cnt_replicate, hji, ih (j + 1) i (by omega)]

/-- The task at enumeration offset `k` occurs exactly its looked-up batch
count many times. -/
theorem cnt_taskChoiceGo_get (nbd : List (String × Nat)) :
    ∀ (names : List String) (j k : Nat) (nm : String),
      names.get? k = Option.some nm →
      cnt (j + k) (taskChoiceGo nbd j names) = (assocGet nbd nm).getD 0 := by
  intro names
  induction names with
  | nil =>
    intro j k nm h
    simp at h
  | cons nm0 rest ih =>
    intro j k nm h
    cases k with
    | zero =>
      have : nm = nm0 := by
        simp only [List.get?] at h
        exact (Option.some.inj h).symm
      subst this
      simp [taskChoiceGo, cnt_append, cnt_replicate,
        cnt_taskChoiceGo_of_lt nbd rest (j + 1) j (by omega)]
    | succ k' =>
      have hget : rest.get? k' = Option.some nm := h
      have hidx : j + (k' + 1) = (j + 1) + k' := by omega
      rw [hidx]
      have hne : ¬j = (j + 1) + k' := by omega
      simp [taskChoiceGo, cnt_append, cnt_replicate, hne,
        ih (j + 1) k' nm hget]

/-- The keys of `num_batches_dict` are the task names. -/
theorem num_batches_keys {B E : Type} (m : MultitaskDataloader B E) :
    (MultitaskDataloader.num_batches_dict m).map Prod.fst
      = MultitaskDataloader.task_name_list m := by
  unfold MultitaskDataloader.num_batches_dict MultitaskDataloader.task_name_list
  rw [List.map_map]
  rfl

/-- Under distinct task names, task index `i` occurs in
`task_choice_list` exactly `declaredLen` times. -/
theorem cnt_task_choice_list {B E : Type} {m : MultitaskDataloader B E}
    (hnd : (MultitaskDataloader.task_name_list m).Nodup) {i : Nat}
    {p : String × TaskLoader B E} (h : m.dataloader_dict.get? i = Option.some p) :
    cnt i (MultitaskDataloader.task_choice_list m) = p.2.declaredLen := by
  have hname : (MultitaskDataloader.task_name_list m).get? i = Option.some p.1 := by
    unfold MultitaskDataloader.task_name_list
    rw [List.get?_map, h]
    rfl
  have hkeys := num_batches_keys m
  have hnb : (MultitaskDataloader.num_batches_dict m).get? i
      = Option.some (p.1, p.2.declaredLen) := by
    unfold MultitaskDataloader.num_batches_dict
    rw [List.get?_map, h]
    rfl
  have hag : assocGet (MultitaskDataloader.num_batches_dict m) p.1
      = Option.some p.2.declaredLen :=
    assocGet_of_get? (by rw [hkeys]; exact hnd) hnb
  have hmain := cnt_taskChoiceGo_get (MultitaskDataloader.num_batches_dict m)
    (MultitaskDataloader.task_name_list m) 0 i p.1 hname
  rw [Nat.zero_add] at hmain
  unfold MultitaskDataloader.task_choice_list
  rw [hmain, hag]
  rfl

/-- Looking every key of a dict back up reads off the values. -/
theorem map_assocGet_keys {α : Type} (d : List (String × α)) (dflt : α)
    (hnd : (d.map Prod.fst).Nodup) :
    (d.map Prod.fst).map (fun nm => (assocGet d nm).getD dflt)
      = d.map Prod.snd := by
  induction d with
  | nil => rfl
  | cons p rest ih =>
    obtain ⟨a, w⟩ := p
    simp only [List.map_cons, List.nodup_cons] at hnd
    have htail : (rest.map Prod.fst).map
          (fun nm => (assocGet ((a, w) :: rest) nm).getD dflt)
        = (rest.map Prod.fst).map (fun nm => (assocGet rest nm).getD dflt) := by
      apply List.map_congr_left
      intro nm hnm
      have hna : ¬a = nm := fun hh => hnd.1 (hh ▸ hnm)
      simp [assocGet, hna]
    simp only [List.map_cons]
    rw [htail, ih hnd.2]
    simp [assocGet]

/-- Length of the flat choice list built from start index `j`. -/
theorem length_taskChoiceGo (nbd : List (String × Nat)) :
    ∀ (names : List String) (j : Nat),
      (taskChoiceGo nbd j names).length
        = (names.map (fun nm => (assocGet nbd nm).getD 0)).sum := by
  intro names
  induction names with
  | nil =>
    intro j
    rfl
  | cons nm rest ih =>
    intro j
    simp [taskChoiceGo, List.length_append, List.length_replicate, ih (j + 1),
      List.sum_cons]

/-- Under distinct task names, the flat choice list has exactly
`__len__`-many entries. -/
theorem length_task_choice_list {B E : Type} {m : MultitaskDataloader B E}
    (hnd : (MultitaskDataloader.task_name_list m).Nodup) :
    (MultitaskDataloader.task_choice_list m).length
      = MultitaskDataloader.len m := by
  have hkeys := num_batches_keys m
  unfold MultitaskDataloader.task_choice_list MultitaskDataloader.len
  rw [length_taskChoiceGo, ← hkeys,
    map_assocGet_keys _ 0 (by rw [hkeys]; exact hnd)]

/-! The sampler's yield loop: success and exhaustion analyses. -/

/-- Walking a choice list succeeds when every task index is drawn at most
as often as its remaining stream is long, and then each task's draws read
its stream off in order. -/
theorem runChoices_ok {B : Type} {names : List String} (hnd : names.Nodup) :
    ∀ (cs : List Nat) (iters : List (String × List B)) (step : Nat),
      iters.map Prod.fst = names →
      (∀ c ∈ cs, c < names.length) →
      (∀ i nm s, names.get? i = Option.some nm →
          assocGet iters nm = Option.some s → cnt i cs ≤ s.length) →
      ∃ bs, runChoices names iters step cs = Except.ok bs
        ∧ bs.length = cs.length
        ∧ ∀ i nm s, names.get? i = Option.some nm →
            assocGet iters nm = Option.some s →
            selectTask cs bs i = s.take (cnt i cs) := by
  intro cs
  induction cs with
  | nil =>
    intro iters step _ _ _
    refine ⟨[], rfl, rfl, ?_⟩
    intro i nm s _ _
    simp [selectTask, cnt_nil]
  | cons c cs ih =>
    intro iters step hkeys hvalid hcount
    have hc : c < names.length := hvalid c (List.mem_cons_self c cs)
    obtain ⟨nm_c, hname⟩ : ∃ nm, names.get? c = Option.some nm := by
      cases hx : names.get? c with
      | none => exact absurd (List.get?_eq_none.mp hx) (Nat.not_le.mpr hc)
      | some nm => exact ⟨nm, rfl⟩
    have hmem : nm_c ∈ iters.map Prod.fst := by
      rw [hkeys]
      exact List.get?_mem hname
    obtain ⟨s_c, hstream⟩ : ∃ s, assocGet iters nm_c = Option.some s := by
      have hsome := assocGet_isSome_iff_mem.mpr hmem
      cases hx : assocGet iters nm_c with
      | none => rw [hx] at hsome; simp at hsome
      | some s => exact ⟨s, rfl⟩
    have hcntc : cnt c (c :: cs) = cnt c cs + 1 := by simp [cnt_cons]
    have hlen : cnt c cs + 1 ≤ s_c.length := by
      rw [← hcntc]
      exact hcount c nm_c s_c hname hstream
    obtain ⟨b, more, hbs⟩ : ∃ b more, s_c = b :: more := by
      cases s_c with
      | nil => simp at hlen
      | cons b more => exact ⟨b, more, rfl⟩
    subst hbs
    have hkeys' : (assocSet iters nm_c more).map Prod.fst = names := by
      rw [assocSet_map_fst_of_mem more hmem, hkeys]
    have hcount' : ∀ i nm s, names.get? i = Option.some nm →
        assocGet (assocSet iters nm_c more) nm = Option.some s →
        cnt i cs ≤ s.length := by
      intro i nm s hg ha
      by_cases hnm : nm = nm_c
      · subst hnm
        have hieq : i = c := nodup_get?_inj hnd hg hname
        subst hieq
        rw [assocGet_assocSet_self] at ha
        have hs : more = s := Option.some.inj ha
        subst hs
        simp only [List.length_cons] at hlen
        omega
      · rw [assocGet_assocSet_ne _ _ hnm] at ha
        have hle := hcount i nm s hg ha
        have hci : ¬c = i := by
          intro hh
          subst hh
          rw [hg] at hname
          exact hnm (Option.some.inj hname)
        rw [cnt_cons] at hle
        simp [hci] at hle
        exact hle
    obtain ⟨bs, hrun, hblen, hsel⟩ := ih (assocSet iters nm_c more) (step + 1)
      hkeys' (fun x hx => hvalid x (List.mem_cons_of_mem _ hx)) hcount'
    refine ⟨b :: bs, ?_, by simp [hblen], ?_⟩
    · simp only [runChoices, hname, hstream, hrun]
      rfl
    · intro i nm s hg ha
      by_cases hic : i = c
      · have hnm2 : nm = nm_c := by
          have hg' : names.get? c = Option.some nm := by
            rw [← hic]
            exact hg
          rw [hg'] at hname
          exact Option.some.inj hname
        have hs : s = b :: more := by
          rw [hnm2, hstream] at ha
          exact (Option.some.inj ha).symm
        have hsel' : selectTask cs bs i = more.take (cnt i cs) := by
          apply hsel i nm more hg
          rw [hnm2]
          exact assocGet_assocSet_self iters nm_c more
        have hci : c = i := hic.symm
        simp only [selectTask, if_pos hci]
        rw [hs, cnt_cons, if_pos hci, List.take_succ_cons, hsel']
      · have hnm : nm ≠ nm_c := nodup_get?_ne hnd hg hname hic
        have ha' : assocGet (assocSet iters nm_c more) nm = Option.some s := by
          rw [assocGet_assocSet_ne _ _ hnm]
          exact ha
        have hsel' := hsel i nm s hg ha'
        have hci : ¬c = i := fun hh => hic hh.symm
        simp only [selectTask, if_neg hci]
        rw [hsel', cnt_cons]
        simp [hci]

/-- Walking a choice list raises `StopIteration` when some task index is
drawn more often than its stream is long, and the failing step is exactly
the one at which the drawn task's iterator has already supplied its whole
stream. -/
theorem runChoices_fail {B : Type} {names : List String} (hnd : names.Nodup) :
    ∀ (cs : List Nat) (iters : List (String × List B)) (step : Nat),
      iters.map Prod.fst = names →
      (∀ c ∈ cs, c < names.length) →
      (∃ i nm s, names.get? i = Option.some nm ∧
          assocGet iters nm = Option.some s ∧ s.length < cnt i cs) →
      ∃ j c nm s, cs.get? j = Option.some c ∧ names.get? c = Option.some nm ∧
        assocGet iters nm = Option.some s ∧
        runChoices names iters step cs
          = Except.error (IterErr.stopIteration (step + j)) ∧
        cnt c (cs.take j) = s.length := by
  intro cs
  induction cs with
  | nil =>
    intro iters step _ _ hshort
    obtain ⟨i, nm, s, _, _, hlt⟩ := hshort
    simp [cnt_nil] at hlt
  | cons c cs ih =>
    intro iters step hkeys hvalid hshort
    have hc : c < names.length := hvalid c (List.mem_cons_self c cs)
    obtain ⟨nm_c, hname⟩ : ∃ nm, names.get? c = Option.some nm := by
      cases hx : names.get? c with
      | none => exact absurd (List.get?_eq_none.mp hx) (Nat.not_le.mpr hc)
      | some nm => exact ⟨nm, rfl⟩
    have hmem : nm_c ∈ iters.map Prod.fst := by
      rw [hkeys]
      exact List.get?_mem hname
    obtain ⟨s_c, hstream⟩ : ∃ s, assocGet iters nm_c = Option.some s := by
      have hsome := assocGet_isSome_iff_mem.mpr hmem
      cases hx : assocGet iters nm_c with
      | none => rw [hx] at hsome; simp at hsome
      | some s => exact ⟨s, rfl⟩
    cases s_c with
    | nil =>
      refine ⟨0, c, nm_c, [], rfl, hname, hstream, ?_, rfl⟩
      simp only [runChoices, hname, hstream]
      rfl
    | cons b more =>
      have hshort' : ∃ i nm s, names.get? i = Option.some nm ∧
          assocGet (assocSet iters nm_c more) nm = Option.some s ∧
          s.length < cnt i cs := by
        obtain ⟨i, nm, s, hg, ha, hlt⟩ := hshort
        by_cases hnm : nm = nm_c
        · refine ⟨c, nm_c, more, hname, assocGet_assocSet_self iters nm_c more, ?_⟩
          have hieq : i = c := by
            rw [hnm] at hg
            exact nodup_get?_inj hnd hg hname
          have hseq : s = b :: more := by
            rw [hnm, hstream] at ha
            exact (Option.some.inj ha).symm
          rw [hieq, hseq] at hlt
          rw [cnt_cons, if_pos rfl] at hlt
          simp only [List.length_cons] at hlt
          omega
        · refine ⟨i, nm, s, hg, ?_, ?_⟩
          · rw [assocGet_assocSet_ne _ _ hnm]
            exact ha
          · have hci : ¬c = i := by
              intro hh
              rw [← hh] at hg
              rw [hg] at hname
              exact hnm (Option.some.inj hname)
            rw [cnt_cons, if_neg hci] at hlt
            simpa using hlt
      have hkeys' : (assocSet iters nm_c more).map Prod.fst = names := by
        rw [assocSet_map_fst_of_mem more hmem, hkeys]
      obtain ⟨j, c', nm', s', hj, hg', ha', hrun, hcnt⟩ :=
        ih (assocSet iters nm_c more) (step + 1) hkeys'
          (fun x hx => hvalid x (List.mem_cons_of_mem _ hx)) hshort'
      have harith : step + 1 + j = step + (j + 1) := by omega
      by_cases hnm' : nm' = nm_c
      · have hceq : c' = c := by
          rw [hnm'] at hg'
          exact nodup_get?_inj hnd hg' hname
        have hs' : s' = more := by
          rw [hnm', assocGet_assocSet_self] at ha'
          exact (Option.some.inj ha').symm
        refine ⟨j + 1, c', nm', b :: more, hj, hg', ?_, ?_, ?_⟩
        · rw [hnm']
          exact hstream
        · simp only [runChoices, hname, hstream, hrun, harith]
          rfl
        · rw [List.take_succ_cons, cnt_cons, if_pos hceq.symm, hcnt, hs']
          simp [List.length_cons]
      · have hcne : c' ≠ c := by
          intro hh
          rw [hh] at hg'
          rw [hg'] at hname
          exact hnm' (Option.some.inj hname)
        refine ⟨j + 1, c', nm', s', hj, hg', ?_, ?_, ?_⟩
        · rw [assocGet_assocSet_ne _ more hnm'] at ha'
          exact ha'
        · simp only [runChoices, hname, hstream, hrun, harith]
          rfl
        · have hcc : ¬c = c' := fun hh => hcne hh.symm
          rw [List.take_succ_cons, cnt_cons, if_neg hcc, hcnt]
          simp

/-! The collator's per-field behaviour. -/

/-- When every example has field `k`, the comprehension succeeds and
produces the column of values. -/
theorem fieldList_eq_column {features : List Ex} {k : String}
    (h : ∀ f ∈ features, (assocGet f k).isSome = true) :
    fieldList features k = Except.ok (column features k) := by
  induction features with
  | nil => rfl
  | cons f rest ih =>
    have hf := h f (List.mem_cons_self f rest)
    cases hv : assocGet f k with
    | none => rw [hv] at hf; simp at hf
    | some v =>
      have hrest := ih (fun g hg => h g (List.mem_cons_of_mem _ hg))
      simp [fieldList, hv, hrest, column, List.filterMap_cons, Except.map]

/-- The per-field loop over an already-started batch appends one stacked
entry per qualifying field of `items`, in order. -/
theorem collateItems_ok (features : List Ex) :
    ∀ (items : List (String × FValue)) (b : List (String × BVal)),
      (items.map Prod.fst).Nodup →
      (∀ p ∈ items, qualField p.1 p.2 = true →
          ∀ f ∈ features, (assocGet f p.1).isSome = true) →
      (∀ p ∈ items, qualField p.1 p.2 = true → p.1 ∉ b.map Prod.fst) →
      collateItems features items (Option.some b)
        = Except.ok (Option.some (b ++
            (items.filter (fun p => qualField p.1 p.2)).map
              (fun p => (p.1, BVal.stk (column features p.1))))) := by
  intro items
  induction items with
  | nil =>
    intro b _ _ _
    simp [collateItems]
  | cons p rest ih =>
    obtain ⟨k, v⟩ := p
    intro b hnd hgather hfresh
    simp only [List.map_cons, List.nodup_cons] at hnd
    by_cases hq : qualField k v = true
    · have hfl : fieldList features k = Except.ok (column features k) :=
        fieldList_eq_column (hgather (k, v) (List.mem_cons_self _ _) hq)
      have hset : assocSet b k (BVal.stk (column features k))
          = b ++ [(k, BVal.stk (column features k))] :=
        assocSet_eq_append_of_not_mem _
          (hfresh (k, v) (List.mem_cons_self _ _) hq)
      have hrec := ih (b ++ [(k, BVal.stk (column features k))]) hnd.2
        (fun p hp hqp => hgather p (List.mem_cons_of_mem _ hp) hqp)
        (by
          intro p hp hqp
          have h1 := hfresh p (List.mem_cons_of_mem _ hp) hqp
          have h2 : p.1 ∈ rest.map Prod.fst := List.mem_map.mpr ⟨p, hp, rfl⟩
          have h3 : p.1 ≠ k := fun hh => hnd.1 (hh ▸ h2)
          intro hmem
          rw [List.map_append] at hmem
          rcases List.mem_append.mp hmem with hmem | hmem
          · exact h1 hmem
          · simp at hmem
            exact h3 hmem)
      simp only [collateItems, if_pos hq, hfl, hset, hrec]
      simp [List.filter_cons, hq, List.append_assoc]
    · have hrec := ih b hnd.2
        (fun p hp hqp => hgather p (List.mem_cons_of_mem _ hp) hqp)
        (fun p hp hqp => hfresh p (List.mem_cons_of_mem _ hp) hqp)
      have hq' : qualField k v = false := by
        cases hqv : qualField k v with
        | false => rfl
        | true => exact absurd hqv hq
      simp only [collateItems, hq', hrec]
      simp [List.filter_cons, hq']

/-- Unfolding the collator's field guard. -/
theorem qualField_iff {k : String} {v : FValue} :
    qualField k v = true ↔
      k ≠ "labels" ∧ v ≠ FValue.pyNone ∧ fvIsStr v = false := by
  simp [qualField, Bool.and_eq_true, decide_eq_true_eq, and_assoc,
    Bool.not_eq_true']

/-- Null or string values never pass the field guard. -/
theorem qualField_false_of_null_or_str {k : String} {v : FValue}
    (h : v = FValue.pyNone ∨ fvIsStr v = true) : qualField k v = false := by
  cases hq : qualField k v with
  | false => rfl
  | true =>
    obtain ⟨-, h2, h3⟩ := qualField_iff.mp hq
    rcases h with h | h
    · exact absurd h h2
    · rw [h3] at h
      cases h

/-- Claim C3: `get_encoder_attr_name` resolves a class name starting with
`Bert` to attribute `bert`, `Roberta` to `roberta`, `Albert` to `albert`,
and raises the `KeyError` naming the unsupported class for every class
name with any other prefix. -/
theorem get_encoder_attr_name_dispatch {K Out : Type} (model : PModel K Out) :
    (pyStartsWith model.className "Bert" = true →
        MultitaskModel.get_encoder_attr_name model = Except.ok "bert")
    ∧ (pyStartsWith model.className "Roberta" = true →
        MultitaskModel.get_encoder_attr_name model = Except.ok "roberta")
    ∧ (pyStartsWith model.className "Albert" = true →
        MultitaskModel.get_encoder_attr_name model = Except.ok "albert")
    ∧ (pyStartsWith model.className "Bert" = false →
        pyStartsWith model.className "Roberta" = false →
        pyStartsWith model.className "Albert" = false →
        MultitaskModel.get_encoder_attr_name model
          = Except.error (PyErr.keyError
              ("Add support for new model " ++ model.className))) := by
  have hBertL : "Bert".toList = ['B', 'e', 'r', 't'] := rfl
  have hRobertaL : "Roberta".toList = ['R', 'o', 'b', 'e', 'r', 't', 'a'] := rfl
  have hAlbertL : "Albert".toList = ['A', 'l', 'b', 'e', 'r', 't'] := rfl
  refine ⟨?_, ?_, ?_, ?_⟩
  · intro h
    simp [MultitaskModel.get_encoder_attr_name, h]
  · intro h
    have hB : pyStartsWith model.className "Bert" = false :=
      pyStartsWith_ne_of_head hRobertaL hBertL (by decide) h
    simp [MultitaskModel.get_encoder_attr_name, hB, h]
  · intro h
    have hB : pyStartsWith model.className "Bert" = false :=
      pyStartsWith_ne_of_head hAlbertL hBertL (by decide) h
    have hR : pyStartsWith model.className "Roberta" = false :=
      pyStartsWith_ne_of_head hAlbertL hRobertaL (by decide) h
    simp [MultitaskModel.get_encoder_attr_name, hB, hR, h]
  · intro h1 h2 h3
    simp [MultitaskModel.get_encoder_attr_name, h1, h2, h3]

/-- Witness for C3 at four concrete class names. -/
theorem get_encoder_attr_name_dispatch_witness :
    MultitaskModel.get_encoder_attr_name bertModel = Except.ok "bert"
    ∧ MultitaskModel.get_encoder_attr_name robertaModel = Except.ok "roberta"
    ∧ MultitaskModel.get_encoder_attr_name albertModel = Except.ok "albert"
    ∧ MultitaskModel.get_encoder_attr_name gpt2Model
        = Except.error (PyErr.keyError "Add support for new model GPT2Model") :=
  ⟨(get_encoder_attr_name_dispatch bertModel).1 (by decide),
   (get_encoder_attr_name_dispatch robertaModel).2.1 (by decide),
   (get_encoder_attr_name_dispatch albertModel).2.2.1 (by decide),
   (get_encoder_attr_name_dispatch gpt2Model).2.2.2
     (by decide) (by decide) (by decide)⟩

/-- Claim C5 (code bug): with the `"labels"` field absent from the first
example, `collate_batch` does not return a labels-free batch of the other
stacked fields, as the spec requires; `batch` is still `None` when the
first stackable field is assigned, so the call raises `TypeError`. -/
theorem collate_batch_missing_labels_typeerror :
    NLPDataCollator.collate_batch
        [[("x", FValue.tensor DType.int64 [1])],
         [("x", FValue.tensor DType.int64 [2])]]
      = Except.error (PyErr.typeError
          "NoneType object does not support item assignment") := rfl

/-- Claim C6: `forward` raises the `KeyError` carrying the task name
exactly when the task is absent from `taskmodels_dict`, and otherwise
returns exactly the result of invoking that task's model (which reads
from the encoder it references) on the keyword inputs. -/
theorem multitask_model_forward_key_lookup {K Out : Type}
    (m : MultitaskModel K Out) (task_name : String) (kwargs : K) :
    (MultitaskModel.forward m task_name kwargs
        = Except.error (PyErr.keyError task_name)
      ↔ assocGet m.taskmodels_dict task_name = Option.none)
    ∧ ∀ model, assocGet m.taskmodels_dict task_name = Option.some model →
        MultitaskModel.forward m task_name kwargs
          = Except.ok (model.run model.encoder kwargs) := by
  constructor
  · constructor
    · intro h
      cases hx : assocGet m.taskmodels_dict task_name with
      | none => rfl
      | some model =>
        simp [MultitaskModel.forward, hx] at h
    · intro h
      simp [MultitaskModel.forward, h]
  · intro model h
    simp [MultitaskModel.forward, h]

/-- Witness for C6 on a concrete two-head model and a present task. -/
theorem multitask_model_forward_key_lookup_witness :
    (MultitaskModel.forward sampleCreatedMM "sst" ()
        = Except.error (PyErr.keyError "sst")
      ↔ assocGet sampleCreatedMM.taskmodels_dict "sst" = Option.none)
    ∧ ∀ model, assocGet sampleCreatedMM.taskmodels_dict "sst"
          = Option.some model →
        MultitaskModel.forward sampleCreatedMM "sst" ()
          = Except.ok (model.run model.encoder ()) :=
  multitask_model_forward_key_lookup sampleCreatedMM "sst" ()

/-- Claim C9: every batch yielded by `DataLoaderWithTaskname` carries a
`task_name` field whose string value is the wrapper's task name, and
`.to(device)` on that field is the identity. -/
theorem dataloader_with_taskname_inert_tag {E : Type}
    (d : DataLoaderWithTaskname E) (dev : Device) (b : TBatch)
    (hb : b ∈ DataLoaderWithTaskname.iter d) :
    ∃ x : StrIgnoreDevice,
      assocGet b "task_name" = Option.some (BatchItem.sid x)
      ∧ x.s = d.task_name
      ∧ StrIgnoreDevice.to x dev = x := by
  obtain ⟨b0, -, hb0⟩ := List.mem_map.mp hb
  refine ⟨⟨d.task_name⟩, ?_, rfl, rfl⟩
  rw [← hb0]
  exact assocGet_assocSet_self b0 "task_name" (BatchItem.sid ⟨d.task_name⟩)

/-- Witness for C9 on a concrete wrapped dataloader. -/
theorem dataloader_with_taskname_inert_tag_witness :
    ∃ x : StrIgnoreDevice,
      assocGet taggedBatch "task_name" = Option.some (BatchItem.sid x)
      ∧ x.s = sampleDLWT.task_name
      ∧ StrIgnoreDevice.to x (Device.cuda 0) = x :=
  dataloader_with_taskname_inert_tag sampleDLWT (Device.cuda 0) taggedBatch
    (by decide)

/-- Claim C10: the `dataset` attribute of a `MultitaskDataloader` is a
list as long as the sum of the per-task dataset sizes whose entries are
all the `None` placeholder. -/
theorem multitask_dataloader_dataset_placeholders {B E : Type}
    (m : MultitaskDataloader B E) :
    (MultitaskDataloader.dataset m).length
        = (m.dataloader_dict.map (fun p => p.2.dataset.length)).sum
    ∧ ∀ x ∈ MultitaskDataloader.dataset m, x = Option.none := by
  constructor
  · exact List.length_replicate _ _
  · intro x hx
    exact List.eq_of_mem_replicate hx

/-- Witness for C10 on a concrete two-task dataloader. -/
theorem multitask_dataloader_dataset_placeholders_witness :
    (MultitaskDataloader.dataset sampleMTD).length
        = (sampleMTD.dataloader_dict.map (fun p => p.2.dataset.length)).sum
    ∧ ∀ x ∈ MultitaskDataloader.dataset sampleMTD, x = Option.none :=
  multitask_dataloader_dataset_placeholders sampleMTD

/-! The construction loop of `MultitaskModel.create`. -/

/-- Once a shared encoder exists, the loop keeps it, appends the new task
models after the accumulated ones, and rebinds every appended model's
encoder attribute to the shared encoder. -/
theorem createLoop_invariant {K Out Cfg : Type} (model_name : String)
    (model_config_dict : List (String × Cfg))
    (fp : String → String → Cfg → Nat → K → Out) :
    ∀ (items : List (String × String)) (fresh enc : Nat)
      (acc : List (String × PModel K Out))
      (res : Option Nat × List (String × PModel K Out)),
      MultitaskModel.createLoop model_name model_config_dict fp items fresh
          (Option.some enc) acc = Except.ok res →
      res.1 = Option.some enc ∧
      ∃ tail, res.2 = acc ++ tail ∧ ∀ p ∈ tail, p.2.encoder = enc := by
  intro items
  induction items with
  | nil =>
    intro fresh enc acc res h
    simp only [MultitaskModel.createLoop] at h
    obtain rfl : (Option.some enc, acc) = res := Except.ok.inj h
    exact ⟨rfl, [], by simp, by simp⟩
  | cons it rest ih =>
    obtain ⟨task_name, model_type⟩ := it
    intro fresh enc acc res h
    simp only [MultitaskModel.createLoop] at h
    cases hcfg : assocGet model_config_dict task_name with
    | none =>
      rw [hcfg] at h
      simp at h
    | some cfg =>
      rw [hcfg] at h
      simp only at h
      cases hattr : MultitaskModel.get_encoder_attr_name
          (⟨model_type, fresh, fp model_name model_type cfg⟩ : PModel K Out) with
      | error e =>
        rw [hattr] at h
        simp at h
      | ok s =>
        rw [hattr] at h
        simp only at h
        obtain ⟨h1, tail, h2, h3⟩ := ih (fresh + 1) enc
          (acc ++ [(task_name, ⟨model_type, enc, fp model_name model_type cfg⟩)])
          res h
        refine ⟨h1,
          (task_name, ⟨model_type, enc, fp model_name model_type cfg⟩) :: tail,
          ?_, ?_⟩
        · rw [h2, List.append_assoc]
          rfl
        · intro p hp
          rcases List.mem_cons.mp hp with hp | hp
          · rw [hp]
          · exact h3 p hp

/-- Claim C2: for every non-empty task mapping on which `create`
succeeds, the resulting model's `encoder` is the encoder object of the
first instantiated model, every task model's encoder attribute references
that same object, and every `forward` call reads the shared encoder. -/
theorem multitask_model_create_shares_encoder {K Out Cfg : Type}
    (model_name : String) (model_type_dict : List (String × String))
    (model_config_dict : List (String × Cfg))
    (fp : String → String → Cfg → Nat → K → Out) (m : MultitaskModel K Out)
    (hne : model_type_dict ≠ [])
    (hok : MultitaskModel.create model_name model_type_dict model_config_dict fp
        = Except.ok m) :
    ∃ e : Nat, m.encoder = Option.some e
      ∧ (∃ p0, m.taskmodels_dict.get? 0 = Option.some p0 ∧ p0.2.encoder = e)
      ∧ (∀ p ∈ m.taskmodels_dict, p.2.encoder = e)
      ∧ (∀ task model kwargs,
          assocGet m.taskmodels_dict task = Option.some model →
          MultitaskModel.forward m task kwargs
            = Except.ok (model.run e kwargs)) := by
  cases model_type_dict with
  | nil => exact absurd rfl hne
  | cons it rest =>
    obtain ⟨t0, ty0⟩ := it
    unfold MultitaskModel.create at hok
    simp only [MultitaskModel.createLoop] at hok
    cases hcfg : assocGet model_config_dict t0 with
    | none =>
      rw [hcfg] at hok
      simp [Except.map] at hok
    | some cfg =>
      rw [hcfg] at hok
      simp only at hok
      cases hattr : MultitaskModel.get_encoder_attr_name
          (⟨ty0, 0, fp model_name ty0 cfg⟩ : PModel K Out) with
      | error e =>
        rw [hattr] at hok
        simp [Except.map] at hok
      | ok s =>
        rw [hattr] at hok
        simp only [Nat.zero_add, List.nil_append] at hok
        cases hloop : MultitaskModel.createLoop model_name model_config_dict fp
            rest 1 (Option.some 0)
            [(t0, ⟨ty0, 0, fp model_name ty0 cfg⟩)] with
        | error e =>
          rw [hloop] at hok
          simp [Except.map] at hok
        | ok res =>
          rw [hloop] at hok
          simp only [Except.map] at hok
          obtain rfl : (⟨res.1, res.2⟩ : MultitaskModel K Out) = m :=
            Except.ok.inj hok
          obtain ⟨h1, tail, h2, h3⟩ :=
            createLoop_invariant model_name model_config_dict fp rest 1 0
              [(t0, ⟨ty0, 0, fp model_name ty0 cfg⟩)] res hloop
          refine ⟨0, h1, ?_, ?_, ?_⟩
          · refine ⟨(t0, ⟨ty0, 0, fp model_name ty0 cfg⟩), ?_, rfl⟩
            show res.2.get? 0 = _
            rw [h2]
            rfl
          · intro p hp
            show p.2.encoder = 0
            rw [h2] at hp
            rcases List.mem_append.mp hp with hp | hp
            · simp at hp
              rw [hp]
            · exact h3 p hp
          · intro task model kwargs hget
            have hmem : (task, model) ∈ res.2 := assocGet_some_mem hget
            have henc : model.encoder = 0 := by
              rw [h2] at hmem
              rcases List.mem_append.mp hmem with hm | hm
              · simp at hm
                rw [hm.2]
              · exact h3 (task, model) hm
            show MultitaskModel.forward ⟨res.1, res.2⟩ task kwargs = _
            simp [MultitaskModel.forward, hget, henc]

/-- Witness for C2: `create` on a Bert head and a Roberta head shares one
encoder object. -/
theorem multitask_model_create_shares_encoder_witness :
    ∃ e : Nat, sampleCreatedMM.encoder = Option.some e
      ∧ (∃ p0, sampleCreatedMM.taskmodels_dict.get? 0 = Option.some p0
          ∧ p0.2.encoder = e)
      ∧ (∀ p ∈ sampleCreatedMM.taskmodels_dict, p.2.encoder = e)
      ∧ (∀ task model kwargs,
          assocGet sampleCreatedMM.taskmodels_dict task = Option.some model →
          MultitaskModel.forward sampleCreatedMM task kwargs
            = Except.ok (model.run e kwargs)) :=
  multitask_model_create_shares_encoder "bert-base-cased" sampleTypes
    sampleCfgs sampleFP sampleCreatedMM (by simp [sampleTypes]) rfl

/-- Claim C8 (amended form): `create` on an empty task mapping yields a
model whose `encoder` is `None` and whose head dict is empty, and every
forward call then fails with a `KeyError` carrying the requested task
name. -/
theorem create_empty_encoder_none_forward_keyerror {K Out Cfg : Type}
    (model_name : String) (model_config_dict : List (String × Cfg))
    (fp : String → String → Cfg → Nat → K → Out) (m : MultitaskModel K Out)
    (hok : MultitaskModel.create model_name [] model_config_dict fp
        = Except.ok m) :
    m.encoder = Option.none ∧ m.taskmodels_dict = []
    ∧ ∀ task kwargs, MultitaskModel.forward m task kwargs
        = Except.error (PyErr.keyError task) := by
  unfold MultitaskModel.create MultitaskModel.createLoop at hok
  simp only [Except.map] at hok
  obtain rfl : (⟨Option.none, []⟩ : MultitaskModel K Out) = m :=
    Except.ok.inj hok
  refine ⟨rfl, rfl, ?_⟩
  intro task kwargs
  rfl

/-- Counterexample for C8 as stated: on the empty mapping the forward
failure is the `KeyError` carrying the requested task name, not an error
whose message says that no tasks are configured. -/
theorem create_empty_no_tasks_message_counterexample :
    ∃ m : MultitaskModel Unit Unit,
      MultitaskModel.create "bert-base-cased" [] ([] : List (String × Unit))
          (fun _ _ _ _ _ => ()) = Except.ok m
      ∧ MultitaskModel.forward m "sst" () = Except.error (PyErr.keyError "sst")
      ∧ PyErr.keyError "sst" ≠ PyErr.keyError "no tasks configured" :=
  ⟨⟨Option.none, []⟩, rfl, rfl, by decide⟩

/-- Witness for the amended C8 at a concrete instantiation. -/
theorem create_empty_encoder_none_forward_keyerror_witness :
    (⟨Option.none, []⟩ : MultitaskModel Unit Unit).encoder = Option.none
    ∧ (⟨Option.none, []⟩ : MultitaskModel Unit Unit).taskmodels_dict = []
    ∧ ∀ task kwargs,
        MultitaskModel.forward (⟨Option.none, []⟩ : MultitaskModel Unit Unit)
            task kwargs
          = Except.error (PyErr.keyError task) :=
  create_empty_encoder_none_forward_keyerror "bert-base-cased"
    ([] : List (String × Unit)) (fun _ _ _ _ _ => ()) ⟨Option.none, []⟩ rfl

/-- Claim C4: on a non-empty batch of dict examples sharing their field
set whose first example has tensor-valued labels, `collate_batch` returns
a mapping holding the labels of all examples in one tensor whose dtype is
integer exactly when the first label's dtype is `int64` and floating
otherwise, holding every other non-null non-string field of the first
example stacked across the examples, and dropping null and string
fields. -/
theorem collate_batch_with_labels_spec
    (features : List Ex) (first : Ex) (rest : List Ex) (dt : DType)
    (ld : List Int)
    (hf : features = first :: rest)
    (hnd : (first.map Prod.fst).Nodup)
    (hlab : assocGet first "labels" = Option.some (FValue.tensor dt ld))
    (hall : ∀ p ∈ first, ∀ f ∈ features, (assocGet f p.1).isSome = true) :
    ∃ b, NLPDataCollator.collate_batch features = Except.ok (Option.some b)
      ∧ assocGet b "labels" = Option.some (BVal.tens
          (if dt = DType.int64 then DType.int64 else DType.float32)
          (column features "labels"))
      ∧ (∀ k v, (k, v) ∈ first → qualField k v = true →
          assocGet b k = Option.some (BVal.stk (column features k)))
      ∧ (∀ k v, (k, v) ∈ first → k ≠ "labels" →
          (v = FValue.pyNone ∨ fvIsStr v = true) →
          assocGet b k = Option.none) := by
  subst hf
  have hlabmem : ("labels", FValue.tensor dt ld) ∈ first :=
    assocGet_some_mem hlab
  have hlabsome : ∀ f ∈ first :: rest, (assocGet f "labels").isSome = true :=
    hall ("labels", FValue.tensor dt ld) hlabmem
  have hfl : fieldList (first :: rest) "labels"
      = Except.ok (column (first :: rest) "labels") :=
    fieldList_eq_column hlabsome
  have hnz : FValue.tensor dt ld ≠ FValue.pyNone := by simp
  have hloop := collateItems_ok (first :: rest) first
    [("labels", BVal.tens (if dt = DType.int64 then DType.int64
        else DType.float32) (column (first :: rest) "labels"))]
    hnd
    (fun p hp _ => hall p hp)
    (by
      intro p _ hq
      have h1 : p.1 ≠ "labels" := (qualField_iff.mp hq).1
      simp [h1])
  have hndf : ((first.filter (fun p => qualField p.1 p.2)).map
        (fun p => (p.1, BVal.stk (column (first :: rest) p.1)))).map Prod.fst
      = (first.filter (fun p => qualField p.1 p.2)).map Prod.fst := by
    rw [List.map_map]
    rfl
  have hndfilter : ((first.filter (fun p => qualField p.1 p.2)).map
      Prod.fst).Nodup :=
    List.Nodup.sublist (List.Sublist.map Prod.fst (List.filter_sublist first))
      hnd
  have hcb : NLPDataCollator.collate_batch (first :: rest)
      = Except.ok (Option.some
          (("labels", BVal.tens (if dt = DType.int64 then DType.int64
              else DType.float32) (column (first :: rest) "labels")) ::
            (first.filter (fun p => qualField p.1 p.2)).map
              (fun p => (p.1, BVal.stk (column (first :: rest) p.1))))) := by
    simp only [NLPDataCollator.collate_batch, hlab]
    rw [if_pos hnz]
    simp only [fvDtype, hfl, hloop]
    rfl
  refine ⟨_, hcb, ?_, ?_, ?_⟩
  · simp [assocGet]
  · intro k v hkv hq
    have hkne : k ≠ "labels" := (qualField_iff.mp hq).1
    have hkne' : ¬"labels" = k := fun hh => hkne hh.symm
    simp only [assocGet, if_neg hkne']
    have hmemf : (k, v) ∈ first.filter (fun p => qualField p.1 p.2) :=
      List.mem_filter.mpr ⟨hkv, hq⟩
    have hmemmap : (k, BVal.stk (column (first :: rest) k))
        ∈ (first.filter (fun p => qualField p.1 p.2)).map
            (fun p => (p.1, BVal.stk (column (first :: rest) p.1))) :=
      List.mem_map.mpr ⟨(k, v), hmemf, rfl⟩
    exact assocGet_of_mem_nodup (by rw [hndf]; exact hndfilter) hmemmap
  · intro k v hkv hkne hns
    have hkne' : ¬"labels" = k := fun hh => hkne hh.symm
    simp only [assocGet, if_neg hkne']
    apply assocGet_eq_none_of_not_mem
    intro hmem
    rw [hndf] at hmem
    obtain ⟨p, hpfilter, hpk⟩ := List.mem_map.mp hmem
    obtain ⟨k', w⟩ := p
    simp only at hpk
    rw [hpk] at hpfilter
    have hpfirst : (k, w) ∈ first := (List.mem_filter.mp hpfilter).1
    have hpq : qualField k w = true := (List.mem_filter.mp hpfilter).2
    have hvw : v = w := assoc_value_unique hnd hkv hpfirst
    have hqf : qualField k v = false := qualField_false_of_null_or_str hns
    rw [hvw] at hqf
    rw [hpq] at hqf
    cases hqf

/-- Witness for C4 on the three-example fixture with integer labels, a
stackable field, a string field and a null field. -/
theorem collate_batch_with_labels_spec_witness :
    ∃ b, NLPDataCollator.collate_batch sampleFeats = Except.ok (Option.some b)
      ∧ assocGet b "labels" = Option.some (BVal.tens
          (if DType.int64 = DType.int64 then DType.int64 else DType.float32)
          (column sampleFeats "labels"))
      ∧ (∀ k v, (k, v) ∈ sampleFirst → qualField k v = true →
          assocGet b k = Option.some (BVal.stk (column sampleFeats k)))
      ∧ (∀ k v, (k, v) ∈ sampleFirst → k ≠ "labels" →
          (v = FValue.pyNone ∨ fvIsStr v = true) →
          assocGet b k = Option.none) :=
  collate_batch_with_labels_spec sampleFeats sampleFirst
    [sampleSecond, sampleThird] DType.int64 [1] rfl (by decide) (by decide)
    (by decide)

/-! Connecting the dataloader dict to the yield loop's bookkeeping. -/

/-- The fresh iterator dict has the task names as keys. -/
theorem mtd_iters_keys {B E : Type} (m : MultitaskDataloader B E) :
    (m.dataloader_dict.map (fun q => (q.1, q.2.batches))).map Prod.fst
      = MultitaskDataloader.task_name_list m := by
  rw [List.map_map]
  rfl

/-- Every entry of (a permutation of) the flat choice list is a valid
task index. -/
theorem mtd_choices_valid {B E : Type} (m : MultitaskDataloader B E)
    {choices : List Nat}
    (hperm : choices.Perm (MultitaskDataloader.task_choice_list m)) :
    ∀ c ∈ choices, c < (MultitaskDataloader.task_name_list m).length := by
  intro c hc
  have hc' : c ∈ MultitaskDataloader.task_choice_list m := hperm.mem_iff.mp hc
  have := taskChoiceGo_bound (MultitaskDataloader.num_batches_dict m)
    (MultitaskDataloader.task_name_list m) 0 c hc'
  omega

/-- The task name at position `i` is the first component of the dict
entry at position `i`. -/
theorem mtd_name_of_get? {B E : Type} (m : MultitaskDataloader B E) {i : Nat}
    {p : String × TaskLoader B E}
    (hp : m.dataloader_dict.get? i = Option.some p) :
    (MultitaskDataloader.task_name_list m).get? i = Option.some p.1 := by
  unfold MultitaskDataloader.task_name_list
  rw [List.get?_map, hp]
  rfl

/-- A position of the task-name list comes from a dict entry. -/
theorem dict_entry_of_name_get? {B E : Type} {m : MultitaskDataloader B E}
    {i : Nat} {nm : String}
    (hg : (MultitaskDataloader.task_name_list m).get? i = Option.some nm) :
    ∃ p, m.dataloader_dict.get? i = Option.some p ∧ p.1 = nm := by
  unfold MultitaskDataloader.task_name_list at hg
  rw [List.get?_map] at hg
  cases hx : m.dataloader_dict.get? i with
  | none => rw [hx] at hg; cases hg
  | some p =>
    rw [hx] at hg
    exact ⟨p, rfl, Option.some.inj hg⟩

/-- Under distinct task names, each task's fresh iterator holds exactly
its dataloader's batch stream. -/
theorem mtd_stream_of_get? {B E : Type} (m : MultitaskDataloader B E)
    (hnd : (MultitaskDataloader.task_name_list m).Nodup) {i : Nat}
    {p : String × TaskLoader B E}
    (hp : m.dataloader_dict.get? i = Option.some p) :
    assocGet (m.dataloader_dict.map (fun q => (q.1, q.2.batches))) p.1
      = Option.some p.2.batches := by
  have h1 : (m.dataloader_dict.map (fun q => (q.1, q.2.batches))).get? i
      = Option.some (p.1, p.2.batches) := by
    rw [List.get?_map, hp]
    rfl
  exact assocGet_of_get? (by rw [mtd_iters_keys]; exact hnd) h1

/-- Claim C1: for a dataloader dict (with distinct task names) whose
iterators supply exactly the declared batch counts, any full pass of
`__iter__` (over any shuffle of the flat choice list) succeeds, yields
each task's batch stream exactly once — so each task contributes exactly
its declared count of batches — and the total number of yielded batches
equals `__len__`, which is the sum of the per-task declared counts. -/
theorem multitask_dataloader_iter_proportional {B E : Type}
    (m : MultitaskDataloader B E) (choices : List Nat)
    (hnd : (MultitaskDataloader.task_name_list m).Nodup)
    (hsup : ∀ p ∈ m.dataloader_dict, p.2.batches.length = p.2.declaredLen)
    (hperm : choices.Perm (MultitaskDataloader.task_choice_list m)) :
    ∃ bs, MultitaskDataloader.iterRun m choices = Except.ok bs
      ∧ bs.length = MultitaskDataloader.len m
      ∧ MultitaskDataloader.len m
          = ((MultitaskDataloader.num_batches_dict m).map Prod.snd).sum
      ∧ ∀ i p, m.dataloader_dict.get? i = Option.some p →
          selectTask choices bs i = p.2.batches := by
  have hcount : ∀ i nm s,
      (MultitaskDataloader.task_name_list m).get? i = Option.some nm →
      assocGet (m.dataloader_dict.map (fun q => (q.1, q.2.batches))) nm
        = Option.some s →
      cnt i choices ≤ s.length := by
    intro i nm s hg ha
    obtain ⟨p, hp, hpnm⟩ := dict_entry_of_name_get? hg
    have hsm := mtd_stream_of_get? m hnd hp
    rw [hpnm] at hsm
    rw [hsm] at ha
    have hs : p.2.batches = s := Option.some.inj ha
    have hpcnt : cnt i choices = p.2.declaredLen := by
      rw [cnt_perm hperm i]
      exact cnt_task_choice_list hnd hp
    rw [hpcnt, ← hs, hsup p (List.get?_mem hp)]
  obtain ⟨bs, hrun, hlen, hsel⟩ := runChoices_ok hnd choices
    (m.dataloader_dict.map (fun q => (q.1, q.2.batches))) 0 (mtd_iters_keys m)
    (mtd_choices_valid m hperm) hcount
  refine ⟨bs, hrun, ?_, rfl, ?_⟩
  · rw [hlen, hperm.length_eq, length_task_choice_list hnd]
  · intro i p hp
    have hg := mtd_name_of_get? m hp
    have hsm := mtd_stream_of_get? m hnd hp
    have hsel' := hsel i p.1 p.2.batches hg hsm
    rw [hsel']
    have hpcnt : cnt i choices = p.2.declaredLen := by
      rw [cnt_perm hperm i]
      exact cnt_task_choice_list hnd hp
    rw [hpcnt, ← hsup p (List.get?_mem hp), List.take_length]

/-- Witness for C1: two tasks declaring 2 and 1 batches, iterated in the
order the flat choice list is built. -/
theorem multitask_dataloader_iter_proportional_witness :
    ∃ bs, MultitaskDataloader.iterRun sampleMTD
        (MultitaskDataloader.task_choice_list sampleMTD) = Except.ok bs
      ∧ bs.length = MultitaskDataloader.len sampleMTD
      ∧ MultitaskDataloader.len sampleMTD
          = ((MultitaskDataloader.num_batches_dict sampleMTD).map Prod.snd).sum
      ∧ ∀ i p, sampleMTD.dataloader_dict.get? i = Option.some p →
          selectTask (MultitaskDataloader.task_choice_list sampleMTD) bs i
            = p.2.batches :=
  multitask_dataloader_iter_proportional sampleMTD
    (MultitaskDataloader.task_choice_list sampleMTD) (by decide) (by decide)
    (List.Perm.refl _)

/-- Claim C7: when some task declares more batches than its iterator
supplies, any full pass of `__iter__` (over any shuffle of the flat
choice list) surfaces a `StopIteration`-style exhaustion error instead of
truncating: the error occurs exactly at the step whose drawn task has
already yielded its entire stream, and that task is one whose supply
falls short of its declared count. -/
theorem multitask_dataloader_iter_exhaustion {B E : Type}
    (m : MultitaskDataloader B E) (choices : List Nat)
    (hnd : (MultitaskDataloader.task_name_list m).Nodup)
    (hperm : choices.Perm (MultitaskDataloader.task_choice_list m))
    (hshort : ∃ i p, m.dataloader_dict.get? i = Option.some p
        ∧ p.2.batches.length < p.2.declaredLen) :
    ∃ j c p, choices.get? j = Option.some c
      ∧ m.dataloader_dict.get? c = Option.some p
      ∧ MultitaskDataloader.iterRun m choices
          = Except.error (IterErr.stopIteration j)
      ∧ cnt c (choices.take j) = p.2.batches.length
      ∧ p.2.batches.length < p.2.declaredLen := by
  obtain ⟨i, p, hp, hlt⟩ := hshort
  have hshort' : ∃ i nm s,
      (MultitaskDataloader.task_name_list m).get? i = Option.some nm
      ∧ assocGet (m.dataloader_dict.map (fun q => (q.1, q.2.batches))) nm
          = Option.some s
      ∧ s.length < cnt i choices := by
    refine ⟨i, p.1, p.2.batches, mtd_name_of_get? m hp,
      mtd_stream_of_get? m hnd hp, ?_⟩
    rw [cnt_perm hperm i, cnt_task_choice_list hnd hp]
    exact hlt
  obtain ⟨j, c, nm, s, hj, hg, ha, hrun, hcnt⟩ := runChoices_fail hnd choices
    (m.dataloader_dict.map (fun q => (q.1, q.2.batches))) 0 (mtd_iters_keys m)
    (mtd_choices_valid m hperm) hshort'
  obtain ⟨q, hq, hqnm⟩ := dict_entry_of_name_get? hg
  have hsm := mtd_stream_of_get? m hnd hq
  rw [hqnm] at hsm
  rw [hsm] at ha
  have hqs : q.2.batches = s := Option.some.inj ha
  refine ⟨j, c, q, hj, hq, ?_, ?_, ?_⟩
  · rw [Nat.zero_add] at hrun
    exact hrun
  · rw [← hqs] at hcnt
    exact hcnt
  · have h1 : cnt c (choices.take (j + 1)) = cnt c (choices.take j) + 1 := by
      rw [cnt_take_succ hj c]
      simp
    have h2 : cnt c (choices.take (j + 1)) ≤ cnt c choices :=
      cnt_take_le c (j + 1) choices
    have h3 : cnt c choices = q.2.declaredLen := by
      rw [cnt_perm hperm c]
      exact cnt_task_choice_list hnd hq
    have h5 : q.2.batches.length = s.length := by rw [hqs]
    omega

/-- Witness for C7: one task declaring 2 batches but supplying only 1
fails with `StopIteration` at step 1, where that task has already yielded
its single batch. -/
theorem multitask_dataloader_iter_exhaustion_witness :
    ∃ j c p, (MultitaskDataloader.task_choice_list shortMTD).get? j
          = Option.some c
      ∧ shortMTD.dataloader_dict.get? c = Option.some p
      ∧ MultitaskDataloader.iterRun shortMTD
            (MultitaskDataloader.task_choice_list shortMTD)
          = Except.error (IterErr.stopIteration j)
      ∧ cnt c ((MultitaskDataloader.task_choice_list shortMTD).take j)
          = p.2.batches.length
      ∧ p.2.batches.length < p.2.declaredLen :=
  multitask_dataloader_iter_exhaustion shortMTD
    (MultitaskDataloader.task_choice_list shortMTD) (by decide)
    (List.Perm.refl _) ⟨0, ("a", ⟨2, [0], [10]⟩), rfl, by decide⟩
